import Mathlib

/-!
# Verification of the resilient data-ingestion layer

Shallow embedding of the repository's data-ingestion code:

* `CacheManager` — `src/apps/realtime-alerts/src/cache/CacheManager.js`
* `BaseApiClient` — the reusable REST client (rate limiting, response cache,
  retry with exponential backoff)
* `App` — the stream-connection state machine of
  `src/apps/realtime-alerts/src/App.jsx` (reconnect scheduling, open/close/
  message handlers)
* `LegacyApp` — the older stream-connection variant (maintenance and
  subscription-error backoff escalations)

JavaScript `Map` objects are modelled as insertion-ordered association lists
(`mapLookup` / `mapSet` / `mapErase`), which matches the `Map` iteration
contract: `set` on a fresh key appends, `set` on an existing key updates in
place, `keys().next()` yields the first inserted key.  Times are integers
(milliseconds); fractional backoff arithmetic uses `ℚ`.
-/

set_option linter.unusedVariables false
set_option linter.unusedSectionVars false
set_option autoImplicit false

/-! ## Association-list model of a JavaScript `Map` -/

section MapModel

variable {κ : Type} [DecidableEq κ] {β : Type}

/-- `Map.prototype.get`: value of the first entry with the given key. -/
def mapLookup : List (κ × β) → κ → Option β
  | [], _ => none
  | (k, v) :: t, k' => if k = k' then some v else mapLookup t k'

/-- `Map.prototype.delete`: remove the first entry with the given key. -/
def mapErase : List (κ × β) → κ → List (κ × β)
  | [], _ => []
  | (k, v) :: t, k' => if k = k' then t else (k, v) :: mapErase t k'

/-- `Map.prototype.set`: update the first entry with the given key in place,
or append a new entry when the key is absent. -/
def mapSet : List (κ × β) → κ → β → List (κ × β)
  | [], k, v => [(k, v)]
  | (k', v') :: t, k, v => if k' = k then (k', v) :: t else (k', v') :: mapSet t k v

/-- `Array.prototype.splice` at `indexOf k`: remove the first occurrence. -/
def eraseFirst : List κ → κ → List κ
  | [], _ => []
  | a :: t, k => if a = k then t else a :: eraseFirst t k

theorem mapLookup_isSome_iff {c : List (κ × β)} {k : κ} :
    (mapLookup c k).isSome ↔ k ∈ c.map Prod.fst := by
  induction c with
  | nil => simp [mapLookup]
  | cons p t ih =>
    obtain ⟨k', v⟩ := p
    by_cases h : k' = k <;> simp [mapLookup, h, ih]
    exact fun hk => (h hk.symm).elim

theorem mapLookup_eq_none_iff {c : List (κ × β)} {k : κ} :
    mapLookup c k = none ↔ k ∉ c.map Prod.fst := by
  rw [← mapLookup_isSome_iff]
  cases mapLookup c k <;> simp

theorem mapErase_of_lookup_none {c : List (κ × β)} {k : κ}
    (h : mapLookup c k = none) : mapErase c k = c := by
  induction c with
  | nil => rfl
  | cons p t ih =>
    obtain ⟨k', v⟩ := p
    by_cases hk : k' = k
    · simp [mapLookup, hk] at h
    · simp only [mapLookup, hk, if_false] at h
      simp [mapErase, hk, ih h]

theorem keys_mapErase (c : List (κ × β)) (k : κ) :
    (mapErase c k).map Prod.fst = eraseFirst (c.map Prod.fst) k := by
  induction c with
  | nil => rfl
  | cons p t ih =>
    obtain ⟨k', v⟩ := p
    by_cases hk : k' = k <;> simp [mapErase, eraseFirst, hk, ih]

theorem eraseFirst_of_not_mem {l : List κ} {k : κ} (h : k ∉ l) :
    eraseFirst l k = l := by
  induction l with
  | nil => rfl
  | cons a t ih =>
    simp only [List.mem_cons, not_or] at h
    simp [eraseFirst, Ne.symm h.1, ih h.2]

theorem eraseFirst_length_le (l : List κ) (k : κ) :
    (eraseFirst l k).length ≤ l.length := by
  induction l with
  | nil => simp [eraseFirst]
  | cons a t ih =>
    by_cases h : a = k
    · simp [eraseFirst, h]
    · simp only [eraseFirst, if_neg h, List.length_cons]
      omega

theorem mem_eraseFirst_of_mem {l : List κ} {a k : κ}
    (h : a ∈ eraseFirst l k) : a ∈ l := by
  induction l with
  | nil => simp [eraseFirst] at h
  | cons b t ih =>
    by_cases hb : b = k
    · simp only [eraseFirst, if_pos hb] at h
      exact List.mem_cons_of_mem _ h
    · simp only [eraseFirst, if_neg hb] at h
      rcases List.mem_cons.mp h with h | h
      · exact h ▸ List.mem_cons_self _ _
      · exact List.mem_cons_of_mem _ (ih h)

theorem nodup_eraseFirst {l : List κ} (k : κ) (h : l.Nodup) :
    (eraseFirst l k).Nodup := by
  induction l with
  | nil => simp [eraseFirst]
  | cons a t ih =>
    rw [List.nodup_cons] at h
    by_cases hk : a = k
    · simpa [eraseFirst, hk] using h.2
    · simp only [eraseFirst, if_neg hk, List.nodup_cons]
      exact ⟨fun hmem => h.1 (mem_eraseFirst_of_mem hmem), ih h.2⟩

theorem mem_eraseFirst_iff {l : List κ} {a k : κ} (hnd : l.Nodup) :
    a ∈ eraseFirst l k ↔ a ∈ l ∧ a ≠ k := by
  induction l with
  | nil => simp [eraseFirst]
  | cons b t ih =>
    rw [List.nodup_cons] at hnd
    by_cases hb : b = k
    · subst hb
      simp only [eraseFirst, if_pos rfl, List.mem_cons]
      constructor
      · intro h
        exact ⟨Or.inr h, fun hak => hnd.1 (hak ▸ h)⟩
      · rintro ⟨h | h, hne⟩
        · exact absurd h hne
        · exact h
    · simp only [eraseFirst, if_neg hb, List.mem_cons, ih hnd.2]
      constructor
      · rintro (h | ⟨h, hne⟩)
        · exact ⟨Or.inl h, h ▸ hb⟩
        · exact ⟨Or.inr h, hne⟩
      · rintro ⟨h | h, hne⟩
        · exact Or.inl h
        · exact Or.inr ⟨h, hne⟩

theorem mapLookup_mapErase {c : List (κ × β)} (hnd : (c.map Prod.fst).Nodup)
    (k k' : κ) :
    mapLookup (mapErase c k) k' = if k' = k then none else mapLookup c k' := by
  induction c with
  | nil => simp [mapErase, mapLookup]
  | cons p t ih =>
    obtain ⟨a, v⟩ := p
    simp only [List.map_cons, List.nodup_cons] at hnd
    by_cases ha : a = k
    · subst ha
      by_cases hk' : k' = a
      · subst hk'
        simp [mapErase, mapLookup_eq_none_iff.mpr hnd.1]
      · simp [mapErase, mapLookup, hk', Ne.symm hk']
    · by_cases hak' : a = k'
      · subst hak'
        simp [mapErase, mapLookup, ha]
      · simp [mapErase, mapLookup, ha, hak', ih hnd.2]

theorem mapLookup_mapSet_self (c : List (κ × β)) (k : κ) (v : β) :
    mapLookup (mapSet c k v) k = some v := by
  induction c with
  | nil => simp [mapSet, mapLookup]
  | cons p t ih =>
    obtain ⟨a, w⟩ := p
    by_cases ha : a = k <;> simp [mapSet, mapLookup, ha, ih]

theorem mapLookup_mapSet_ne (c : List (κ × β)) {k k' : κ} (h : k ≠ k') (v : β) :
    mapLookup (mapSet c k v) k' = mapLookup c k' := by
  induction c with
  | nil => simp [mapSet, mapLookup, h]
  | cons p t ih =>
    obtain ⟨a, w⟩ := p
    by_cases ha : a = k
    · subst ha
      simp [mapSet, mapLookup, h]
    · simp [mapSet, mapLookup, ha, ih]

theorem keys_mapSet (c : List (κ × β)) (k : κ) (v : β) :
    (mapSet c k v).map Prod.fst =
      if (mapLookup c k).isSome then c.map Prod.fst else c.map Prod.fst ++ [k] := by
  induction c with
  | nil => simp [mapSet, mapLookup]
  | cons p t ih =>
    obtain ⟨a, w⟩ := p
    by_cases ha : a = k
    · subst ha
      simp [mapSet, mapLookup]
    · simp only [mapSet, if_neg ha, List.map_cons, mapLookup,
        if_neg ha, ih]
      by_cases h : (mapLookup t k).isSome <;> simp [h]

end MapModel

/-! ## CacheManager (`src/apps/realtime-alerts/src/cache/CacheManager.js`) -/

/-- `class CacheEntry`.  `ttl = 0` plays the role of a missing/`null` TTL
(JavaScript `if (!this.ttl) return false`). -/
structure CacheEntry (α : Type) where
  value : α
  createdAt : ℤ
  lastAccessed : ℤ
  accessCount : ℕ
  ttl : ℤ
  deriving DecidableEq, Repr

/-- `CacheEntry.isExpired`. -/
def CacheEntry.isExpired {α : Type} (e : CacheEntry α) (now : ℤ) : Bool :=
  if e.ttl = 0 then false else decide (now - e.createdAt > e.ttl)

/-- `CacheEntry.touch`. -/
def CacheEntry.touch {α : Type} (e : CacheEntry α) (now : ℤ) : CacheEntry α :=
  { e with lastAccessed := now, accessCount := e.accessCount + 1 }

/-- `CacheEntry.getSize`: `JSON.stringify(value).length * 2 + 100`.  The
serialized size of the value is abstracted by `valueSize`. -/
def CacheEntry.getSize {α : Type} (valueSize : α → ℤ) (e : CacheEntry α) : ℤ :=
  valueSize e.value + 100

/-- Constructor options of `CacheManager` (`maxSize`, `maxMemory`,
`defaultTTL`).  `cleanupInterval` only drives the sweep timer and is not part
of the state. -/
structure CacheConfig where
  maxSize : ℕ
  maxMemory : ℤ
  defaultTTL : ℤ
  deriving DecidableEq, Repr

/-- Mutable state of one `CacheManager` instance: the `Map`, the LRU
`accessOrder` array and the running byte estimate `currentMemory`. -/
structure CMState (κ α : Type) where
  cache : List (κ × CacheEntry α)
  accessOrder : List κ
  currentMemory : ℤ
  deriving DecidableEq, Repr

namespace CacheManager

variable {κ α : Type} [DecidableEq κ]

/-- The freshly constructed cache (`new CacheManager(...)`). -/
def emptyState : CMState κ α := ⟨[], [], 0⟩

/-- `CacheManager.removeEntry`. -/
def removeEntry (valueSize : α → ℤ) (s : CMState κ α) (k : κ) : CMState κ α :=
  match mapLookup s.cache k with
  | none => s
  | some e =>
    { cache := mapErase s.cache k
      accessOrder := eraseFirst s.accessOrder k
      currentMemory := s.currentMemory - e.getSize valueSize }

/-- `CacheManager.shouldEvict`. -/
def shouldEvict (cfg : CacheConfig) (s : CMState κ α) (newEntrySize : ℤ) : Bool :=
  decide (cfg.maxSize ≤ s.cache.length) || decide (cfg.maxMemory < s.currentMemory + newEntrySize)

/-- `CacheManager.evictLRU`: shift the head of `accessOrder`, then
`removeEntry` it. -/
def evictLRU (valueSize : α → ℤ) (s : CMState κ α) : CMState κ α :=
  match s.accessOrder with
  | [] => s
  | k :: rest => removeEntry valueSize { s with accessOrder := rest } k

theorem removeEntry_accessOrder_length_le (valueSize : α → ℤ) (s : CMState κ α) (k : κ) :
    (removeEntry valueSize s k).accessOrder.length ≤ s.accessOrder.length := by
  unfold removeEntry
  cases mapLookup s.cache k with
  | none => exact le_refl _
  | some e => exact eraseFirst_length_le _ _

theorem evictLRU_accessOrder_length_lt (valueSize : α → ℤ) (s : CMState κ α)
    (h : s.accessOrder ≠ []) :
    (evictLRU valueSize s).accessOrder.length < s.accessOrder.length := by
  unfold evictLRU
  cases ho : s.accessOrder with
  | nil => exact absurd ho h
  | cons k rest =>
    calc (removeEntry valueSize { s with accessOrder := rest } k).accessOrder.length
        ≤ rest.length := removeEntry_accessOrder_length_le _ _ _
      _ < (k :: rest).length := Nat.lt_succ_self _

/-- The `while (this.shouldEvict(entrySize)) { this.evictLRU() }` loop in
`set`.  When `accessOrder` is empty and the bound is still exceeded the
JavaScript loop never terminates; that case is `none`. -/
def evictLoop (cfg : CacheConfig) (valueSize : α → ℤ) (newEntrySize : ℤ)
    (s : CMState κ α) : Option (CMState κ α) :=
  if shouldEvict cfg s newEntrySize then
    if h : s.accessOrder = [] then none
    else evictLoop cfg valueSize newEntrySize (evictLRU valueSize s)
  else some s
termination_by s.accessOrder.length
decreasing_by exact evictLRU_accessOrder_length_lt valueSize s h

/-- `CacheManager.set`.  The TTL argument is `ttl || this.defaultTTL`:
`none` or `some 0` fall back to the default. -/
def set (cfg : CacheConfig) (valueSize : α → ℤ) (s : CMState κ α)
    (k : κ) (v : α) (ttl : Option ℤ) (now : ℤ) : Option (CMState κ α) :=
  let entry : CacheEntry α :=
    { value := v, createdAt := now, lastAccessed := now, accessCount := 0
      ttl := match ttl with
             | none => cfg.defaultTTL
             | some t => if t = 0 then cfg.defaultTTL else t }
  let entrySize := entry.getSize valueSize
  (evictLoop cfg valueSize entrySize s).map fun s1 =>
    let s2 := if (mapLookup s1.cache k).isSome then removeEntry valueSize s1 k else s1
    { cache := mapSet s2.cache k entry
      accessOrder := s2.accessOrder ++ [k]
      currentMemory := s2.currentMemory + entrySize }

/-- `CacheManager.moveToFront` (most-recently-used position is the array
end; `evictLRU` shifts from the front). -/
def moveToFront (l : List κ) (k : κ) : List κ :=
  if k ∈ l then eraseFirst l k ++ [k] else l

/-- `CacheManager.get`: lazy expiry check, then `touch` + `moveToFront`. -/
def get (valueSize : α → ℤ) (s : CMState κ α) (k : κ) (now : ℤ) :
    Option α × CMState κ α :=
  match mapLookup s.cache k with
  | none => (none, s)
  | some e =>
    if e.isExpired now then (none, removeEntry valueSize s k)
    else
      let e' := e.touch now
      (some e'.value,
        { s with cache := mapSet s.cache k e'
                 accessOrder := moveToFront s.accessOrder k })

/-- `CacheManager.has`. -/
def has (valueSize : α → ℤ) (s : CMState κ α) (k : κ) (now : ℤ) :
    Bool × CMState κ α :=
  match mapLookup s.cache k with
  | none => (false, s)
  | some e =>
    if e.isExpired now then (false, removeEntry valueSize s k) else (true, s)

/-- `CacheManager.delete`. -/
def delete (valueSize : α → ℤ) (s : CMState κ α) (k : κ) : CMState κ α :=
  removeEntry valueSize s k

/-- `CacheManager.clear`. -/
def clear (s : CMState κ α) : CMState κ α := ⟨[], [], 0⟩

/-- `CacheManager.cleanup`: collect the expired keys, then remove each. -/
def cleanup (valueSize : α → ℤ) (s : CMState κ α) (now : ℤ) : CMState κ α :=
  let expiredKeys := (s.cache.filter fun p => p.2.isExpired now).map Prod.fst
  expiredKeys.foldl (fun acc k => removeEntry valueSize acc k) s

/-- Estimated total size of the stored entries. -/
def memSum (valueSize : α → ℤ) (c : List (κ × CacheEntry α)) : ℤ :=
  (c.map fun p => p.2.getSize valueSize).sum

/-- Structural invariant of `CacheManager`: `accessOrder` holds exactly the
keys of the `Map`, each once, and `currentMemory` is the sum of the entry
sizes. -/
structure Inv (valueSize : α → ℤ) (s : CMState κ α) : Prop where
  orderNodup : s.accessOrder.Nodup
  keysNodup : (s.cache.map Prod.fst).Nodup
  orderMatches : ∀ k, k ∈ s.accessOrder ↔ (mapLookup s.cache k).isSome
  memoryEq : s.currentMemory = memSum valueSize s.cache

end CacheManager

namespace CacheManager

variable {κ α : Type} [DecidableEq κ] (valueSize : α → ℤ)

theorem memSum_nil : memSum valueSize ([] : List (κ × CacheEntry α)) = 0 := rfl

theorem memSum_cons (a : κ) (e : CacheEntry α) (t : List (κ × CacheEntry α)) :
    memSum valueSize ((a, e) :: t) = e.getSize valueSize + memSum valueSize t := by
  simp [memSum]

theorem memSum_mapErase {c : List (κ × CacheEntry α)} {k : κ} {e : CacheEntry α}
    (h : mapLookup c k = some e) :
    memSum valueSize (mapErase c k) = memSum valueSize c - e.getSize valueSize := by
  induction c with
  | nil => simp [mapLookup] at h
  | cons p t ih =>
    obtain ⟨a, v⟩ := p
    by_cases ha : a = k
    · simp only [mapLookup, if_pos ha, Option.some.injEq] at h
      subst h
      simp only [mapErase, if_pos ha, memSum_cons]
      ring
    · simp only [mapLookup, if_neg ha] at h
      simp only [mapErase, if_neg ha, memSum_cons, ih h]
      ring

theorem memSum_mapSet_of_none {c : List (κ × CacheEntry α)} {k : κ}
    (h : mapLookup c k = none) (e : CacheEntry α) :
    memSum valueSize (mapSet c k e) = memSum valueSize c + e.getSize valueSize := by
  induction c with
  | nil => simp [mapSet, memSum_cons, memSum_nil]
  | cons p t ih =>
    obtain ⟨a, v⟩ := p
    by_cases ha : a = k
    · simp [mapLookup, ha] at h
    · simp only [mapLookup, if_neg ha] at h
      simp only [mapSet, if_neg ha, memSum_cons, ih h]
      ring

theorem memSum_mapSet_same {c : List (κ × CacheEntry α)} {k : κ}
    {e : CacheEntry α} (e' : CacheEntry α) (h : mapLookup c k = some e)
    (hsz : e'.getSize valueSize = e.getSize valueSize) :
    memSum valueSize (mapSet c k e') = memSum valueSize c := by
  induction c with
  | nil => simp [mapLookup] at h
  | cons p t ih =>
    obtain ⟨a, v⟩ := p
    by_cases ha : a = k
    · simp only [mapLookup, if_pos ha, Option.some.injEq] at h
      subst h
      simp only [mapSet, if_pos ha, memSum_cons, hsz]
    · simp only [mapLookup, if_neg ha] at h
      simp only [mapSet, if_neg ha, memSum_cons, ih h]

/-- The fresh cache satisfies the invariant. -/
theorem inv_emptyState : Inv valueSize (emptyState : CMState κ α) := by
  constructor <;> simp [emptyState, memSum_nil, mapLookup]

theorem inv_mk (c : List (κ × CacheEntry α)) (l : List κ) (m : ℤ)
    (h1 : l.Nodup) (h2 : (c.map Prod.fst).Nodup)
    (h3 : ∀ k, k ∈ l ↔ (mapLookup c k).isSome)
    (h4 : m = memSum valueSize c) :
    Inv valueSize (⟨c, l, m⟩ : CMState κ α) := ⟨h1, h2, h3, h4⟩

theorem get_eq_none {s : CMState κ α} {k : κ} (now : ℤ)
    (h : mapLookup s.cache k = none) :
    get valueSize s k now = (none, s) := by
  unfold get
  rw [h]

theorem get_eq_some {s : CMState κ α} {k : κ} {e : CacheEntry α} (now : ℤ)
    (h : mapLookup s.cache k = some e) :
    get valueSize s k now =
      if e.isExpired now = true then (none, removeEntry valueSize s k)
      else (some (e.touch now).value,
        { s with cache := mapSet s.cache k (e.touch now)
                 accessOrder := moveToFront s.accessOrder k }) := by
  unfold get
  rw [h]

theorem has_eq_some {s : CMState κ α} {k : κ} {e : CacheEntry α} (now : ℤ)
    (h : mapLookup s.cache k = some e) :
    has valueSize s k now =
      if e.isExpired now = true then (false, removeEntry valueSize s k)
      else (true, s) := by
  unfold has
  rw [h]

theorem lookup_removeEntry_self {s : CMState κ α}
    (hnd : (s.cache.map Prod.fst).Nodup) (k : κ) :
    mapLookup (removeEntry valueSize s k).cache k = none := by
  unfold removeEntry
  cases h : mapLookup s.cache k with
  | none => exact h
  | some e => simp [mapLookup_mapErase hnd k k]

theorem inv_removeEntry {s : CMState κ α} (hs : Inv valueSize s) (k : κ) :
    Inv valueSize (removeEntry valueSize s k) := by
  unfold removeEntry
  cases h : mapLookup s.cache k with
  | none => exact hs
  | some e =>
    constructor
    · exact nodup_eraseFirst _ hs.orderNodup
    · rw [keys_mapErase]
      exact nodup_eraseFirst _ hs.keysNodup
    · intro k'
      rw [mem_eraseFirst_iff hs.orderNodup, mapLookup_mapErase hs.keysNodup k k']
      by_cases hk : k' = k
      · simp [hk]
      · simp [hk, hs.orderMatches k']
    · simp only
      rw [hs.memoryEq, memSum_mapErase valueSize h]

theorem inv_evictLRU {s : CMState κ α} (hs : Inv valueSize s) :
    Inv valueSize (evictLRU valueSize s) := by
  unfold evictLRU
  cases ho : s.accessOrder with
  | nil => exact hs
  | cons k rest =>
    have hk : k ∈ s.accessOrder := ho ▸ List.mem_cons_self _ _
    have hsome := (hs.orderMatches k).mp hk
    obtain ⟨e, he⟩ := Option.isSome_iff_exists.mp hsome
    have hnd : (k :: rest).Nodup := ho ▸ hs.orderNodup
    rw [List.nodup_cons] at hnd
    unfold removeEntry
    simp only [he]
    rw [eraseFirst_of_not_mem hnd.1]
    refine ⟨hnd.2, ?_, ?_, ?_⟩
    · rw [keys_mapErase]
      exact nodup_eraseFirst _ hs.keysNodup
    · intro k'
      rw [mapLookup_mapErase hs.keysNodup k k']
      by_cases hk' : k' = k
      · subst hk'
        simp [hnd.1]
      · rw [if_neg hk']
        have hmm := hs.orderMatches k'
        rw [ho, List.mem_cons] at hmm
        rw [← hmm]
        exact ⟨fun hr => Or.inr hr, fun hr => hr.resolve_left hk'⟩
    · rw [hs.memoryEq, memSum_mapErase valueSize he]

theorem inv_evictLoop (cfg : CacheConfig) (newEntrySize : ℤ) :
    ∀ (n : ℕ) (s : CMState κ α), s.accessOrder.length ≤ n → Inv valueSize s →
      ∀ s', evictLoop cfg valueSize newEntrySize s = some s' → Inv valueSize s' := by
  intro n
  induction n with
  | zero =>
    intro s hle hs s' h
    rw [evictLoop] at h
    by_cases hev : shouldEvict cfg s newEntrySize = true
    · rw [if_pos hev] at h
      have ho : s.accessOrder = [] := List.length_eq_zero.mp (Nat.le_zero.mp hle)
      rw [dif_pos ho] at h
      exact absurd h (by simp)
    · rw [if_neg hev] at h
      simp only [Option.some.injEq] at h
      exact h ▸ hs
  | succ n ih =>
    intro s hle hs s' h
    rw [evictLoop] at h
    by_cases hev : shouldEvict cfg s newEntrySize = true
    · rw [if_pos hev] at h
      by_cases ho : s.accessOrder = []
      · rw [dif_pos ho] at h
        exact absurd h (by simp)
      · rw [dif_neg ho] at h
        refine ih (evictLRU valueSize s) ?_ (inv_evictLRU valueSize hs) s' h
        have := evictLRU_accessOrder_length_lt valueSize s ho
        omega
    · rw [if_neg hev] at h
      simp only [Option.some.injEq] at h
      exact h ▸ hs

theorem inv_set (cfg : CacheConfig) {s : CMState κ α} (hs : Inv valueSize s)
    (k : κ) (v : α) (ttl : Option ℤ) (now : ℤ) {s' : CMState κ α}
    (h : set cfg valueSize s k v ttl now = some s') : Inv valueSize s' := by
  unfold set at h
  simp only [Option.map_eq_some'] at h
  obtain ⟨s1, h1, h2⟩ := h
  have hs1 : Inv valueSize s1 :=
    inv_evictLoop valueSize cfg _ s.accessOrder.length s le_rfl hs s1 h1
  set entry : CacheEntry α :=
    { value := v, createdAt := now, lastAccessed := now, accessCount := 0
      ttl := match ttl with
             | none => cfg.defaultTTL
             | some t => if t = 0 then cfg.defaultTTL else t } with hentry
  set s2 := if (mapLookup s1.cache k).isSome then removeEntry valueSize s1 k else s1 with hs2def
  have hs2 : Inv valueSize s2 := by
    rw [hs2def]
    by_cases hk : (mapLookup s1.cache k).isSome
    · rw [if_pos hk]
      exact inv_removeEntry valueSize hs1 k
    · rw [if_neg hk]
      exact hs1
  have hk2 : mapLookup s2.cache k = none := by
    rw [hs2def]
    by_cases hk : (mapLookup s1.cache k).isSome
    · rw [if_pos hk]
      exact lookup_removeEntry_self valueSize hs1.keysNodup k
    · rw [if_neg hk]
      exact Option.not_isSome_iff_eq_none.mp hk
  have hkmem : k ∉ s2.cache.map Prod.fst := mapLookup_eq_none_iff.mp hk2
  have hkord : k ∉ s2.accessOrder := fun hmem =>
    (Option.not_isSome_iff_eq_none.mpr hk2) ((hs2.orderMatches k).mp hmem)
  rw [← h2]
  refine inv_mk valueSize _ _ _ ?_ ?_ ?_ ?_
  · simp [List.nodup_append, hs2.orderNodup, hkord]
  · rw [keys_mapSet, hk2]
    simp [List.nodup_append, hs2.keysNodup, hkmem]
  · intro k'
    simp only [List.mem_append, List.mem_singleton]
    by_cases hk' : k' = k
    · subst hk'
      simp [mapLookup_mapSet_self]
    · rw [mapLookup_mapSet_ne _ (fun hkk => hk' hkk.symm)]
      simp [hk', hs2.orderMatches k']
  · rw [hs2.memoryEq, memSum_mapSet_of_none valueSize hk2]

theorem inv_get {s : CMState κ α} (hs : Inv valueSize s) (k : κ) (now : ℤ) :
    Inv valueSize (get valueSize s k now).2 := by
  cases h : mapLookup s.cache k with
  | none =>
    rw [get_eq_none valueSize now h]
    exact hs
  | some e =>
    rw [get_eq_some valueSize now h]
    by_cases hex : e.isExpired now = true
    · rw [if_pos hex]
      exact inv_removeEntry valueSize hs k
    · rw [if_neg hex]
      have hmem : k ∈ s.accessOrder := (hs.orderMatches k).mpr (by simp [h])
      refine inv_mk valueSize _ _ _ ?_ ?_ ?_ ?_
      · unfold moveToFront
        rw [if_pos hmem]
        have hnd := nodup_eraseFirst (l := s.accessOrder) k hs.orderNodup
        have hnk : k ∉ eraseFirst s.accessOrder k := fun hc =>
          ((mem_eraseFirst_iff hs.orderNodup).mp hc).2 rfl
        simp [List.nodup_append, hnd, hnk]
      · rw [keys_mapSet, h]
        simpa using hs.keysNodup
      · intro k'
        unfold moveToFront
        rw [if_pos hmem]
        simp only [List.mem_append, List.mem_singleton,
          mem_eraseFirst_iff hs.orderNodup]
        by_cases hk' : k' = k
        · subst hk'
          simp [mapLookup_mapSet_self]
        · rw [mapLookup_mapSet_ne _ (fun hkk => hk' hkk.symm)]
          simp [hk', hs.orderMatches k']
      · rw [hs.memoryEq]
        exact (memSum_mapSet_same valueSize (e.touch now) h rfl).symm

theorem inv_has {s : CMState κ α} (hs : Inv valueSize s) (k : κ) (now : ℤ) :
    Inv valueSize (has valueSize s k now).2 := by
  cases h : mapLookup s.cache k with
  | none =>
    unfold has
    rw [h]
    exact hs
  | some e =>
    rw [has_eq_some valueSize now h]
    by_cases hex : e.isExpired now = true
    · rw [if_pos hex]
      exact inv_removeEntry valueSize hs k
    · rw [if_neg hex]
      exact hs

theorem inv_delete {s : CMState κ α} (hs : Inv valueSize s) (k : κ) :
    Inv valueSize (delete valueSize s k) :=
  inv_removeEntry valueSize hs k

theorem inv_clear (s : CMState κ α) : Inv valueSize (clear s) := by
  constructor <;> simp [clear, memSum_nil, mapLookup]

theorem inv_cleanup {s : CMState κ α} (hs : Inv valueSize s) (now : ℤ) :
    Inv valueSize (cleanup valueSize s now) := by
  unfold cleanup
  generalize (List.map Prod.fst (s.cache.filter fun p => p.2.isExpired now)) = ks
  induction ks generalizing s with
  | nil => exact hs
  | cons a t ih => exact ih (inv_removeEntry valueSize hs a)

end CacheManager

/-! ## BaseApiClient (the reusable REST client: rate limiting, response
cache, retry with exponential backoff) -/

namespace BaseApiClient

/-- Constructor configuration of `BaseApiClient`. -/
structure ClientConfig where
  rateLimitDelay : ℤ
  maxRetries : ℕ
  retryDelay : ℤ
  cacheDuration : ℤ
  deriving DecidableEq, Repr

/-- The Alpha Vantage client configuration: `rateLimitDelay: 12000`,
`maxRetries: 3`, `retryDelay: 5000`, `cacheDuration: 5 * 60 * 1000`. -/
def alphaVantageConfig : ClientConfig := ⟨12000, 3, 5000, 300000⟩

/-- Mutable client state: the response `Map` (entries `{data, timestamp}`
kept in insertion order, as a JavaScript `Map` does), `lastRequestTime`,
`requestCount` and `errorCount`. -/
structure ClientState (κ α : Type) where
  cache : List (κ × α × ℤ)
  lastRequestTime : ℤ
  requestCount : ℕ
  errorCount : ℕ
  deriving DecidableEq, Repr

variable {κ α : Type} [DecidableEq κ]

/-- `BaseApiClient.getCachedData`: entries younger than `cacheDuration` are
returned; expired entries are deleted from the map. -/
def getCachedData (cacheDuration : ℤ) (cache : List (κ × α × ℤ)) (k : κ)
    (now : ℤ) : Option α × List (κ × α × ℤ) :=
  match mapLookup cache k with
  | none => (none, cache)
  | some (d, ts) =>
    if now - ts < cacheDuration then (some d, cache) else (none, mapErase cache k)

/-- `BaseApiClient.setCachedData`: `Map.set`, then, when the map holds more
than 50 entries, delete `this.cache.keys().next().value` — the first
inserted key, regardless of how recently it was read. -/
def setCachedData (cache : List (κ × α × ℤ)) (k : κ) (d : α) (now : ℤ) :
    List (κ × α × ℤ) :=
  let c1 := mapSet cache k (d, now)
  if 50 < c1.length then
    match c1 with
    | [] => []
    | (k0, _) :: _ => mapErase c1 k0
  else c1

/-- One observable outcome of `fetch` + `response.json()` for one attempt:
a 2xx response with a parseable body, a response with `response.ok` false,
a rejected `fetch` (network failure), or a 2xx response whose body fails to
parse. -/
inductive FetchOutcome (α : Type) where
  | ok (data : α)
  | status (code : ℕ)
  | netfail
  | badJson
  deriving DecidableEq, Repr

/-- The errors thrown by the `requestFn` closure inside `request`. -/
inductive ReqError where
  | rateLimitExceeded
  | httpError (code : ℕ)
  | networkError
  | malformedResponse
  deriving DecidableEq, Repr

/-- The `requestFn` closure of `BaseApiClient.request`: a 429 throws
`Rate limit exceeded`, any other non-ok status throws `HTTP error!`,
a network failure or an unparseable body rejects as well. -/
def requestFn (o : FetchOutcome α) : Except ReqError α :=
  match o with
  | .ok d => .ok d
  | .status c => if c = 429 then .error .rateLimitExceeded else .error (.httpError c)
  | .netfail => .error .networkError
  | .badJson => .error .malformedResponse

/-- `BaseApiClient.retryRequest`: every caught error is retried until
`attempt >= maxRetries`, sleeping `retryDelay * 2^(attempt-1)` before each
retry.  Returns the final result, the total number of attempts performed,
and the list of delays slept. -/
def retryRequest (run : ℕ → Except ReqError α) (maxRetries : ℕ)
    (retryDelay : ℤ) (attempt : ℕ) : Except ReqError α × ℕ × List ℤ :=
  match run attempt with
  | .ok d => (.ok d, 1, [])
  | .error e =>
    if h : maxRetries ≤ attempt then (.error e, 1, [])
    else
      let r := retryRequest run maxRetries retryDelay (attempt + 1)
      (r.1, r.2.1 + 1, retryDelay * 2 ^ (attempt - 1) :: r.2.2)
termination_by maxRetries - attempt
decreasing_by omega

/-- The fall-through path of `request` after the cache check fails to
return: `retryRequest(() => rateLimitedRequest(requestFn))`, then the
write-through on success.  `c1` is the cache as left by the
`getCachedData` call (an expired entry may have been deleted). -/
def requestNetwork (cfg : ClientConfig) (s : ClientState κ α)
    (c1 : List (κ × α × ℤ)) (key : κ) (fetch : ℕ → FetchOutcome α)
    (admitTime : ℕ → ℤ) : Except ReqError α × ClientState κ α × ℕ :=
  let r := retryRequest (fun i => requestFn (fetch i)) cfg.maxRetries cfg.retryDelay 1
  let n := r.2.1
  let s1 : ClientState κ α :=
    { s with cache := c1
             lastRequestTime := admitTime n
             requestCount := s.requestCount + n }
  match r.1 with
  | .ok d => (.ok d, { s1 with cache := setCachedData s1.cache key d (admitTime n) }, n)
  | .error e => (.error e, { s1 with errorCount := s1.errorCount + 1 }, n)

/-- `BaseApiClient.request` for a cacheable GET (`options.useCache` not
disabled).  The cache-hit check is `if (cached) { return cached }` — a JS
TRUTHINESS test on the value `getCachedData` returned (`null` on
miss/expiry, otherwise the cached payload itself), abstracted by `truthy`:
a fresh entry whose payload is falsy does NOT short-circuit.  `fetch` maps
each attempt number to its transport outcome; `admitTime` maps each attempt
number to the `Date.now()` value read at that attempt's rate-limiter
admission.  Returns the result, the next client state, and the number of
network calls performed. -/
def request (cfg : ClientConfig) (truthy : α → Bool) (s : ClientState κ α)
    (key : κ) (now : ℤ) (fetch : ℕ → FetchOutcome α) (admitTime : ℕ → ℤ) :
    Except ReqError α × ClientState κ α × ℕ :=
  match getCachedData cfg.cacheDuration s.cache key now with
  | (some v, c1) =>
    if truthy v then (.ok v, { s with cache := c1 }, 0)
    else requestNetwork cfg s c1 key fetch admitTime
  | (none, c1) => requestNetwork cfg s c1 key fetch admitTime

/-- JS truthiness of a numeric JSON payload: `0` (and `NaN`) are falsy. -/
def intTruthy : ℤ → Bool := fun z => decide (z ≠ 0)

/-- Timing of one `rateLimitedRequest` call under idealized timers: a call
that read `lastReq` from `this.lastRequestTime` at time `readTime` executes
`this.lastRequestTime = Date.now()` (its admission) immediately when the
observed spacing is large enough, and otherwise after sleeping exactly
`rateLimitDelay - (readTime - lastReq)` milliseconds. -/
def admissionTime (rateLimitDelay lastReq readTime : ℤ) : ℤ :=
  if readTime - lastReq < rateLimitDelay then
    readTime + (rateLimitDelay - (readTime - lastReq))
  else readTime

/-- Two serialized calls to `rateLimitedRequest`: the second call performs
its read of `lastRequestTime` after the first call's admission, so it
observes the value written at the first admission. -/
def twoSequentialAdmissions (delay lastReq aRead bRead : ℤ) : ℤ × ℤ :=
  (admissionTime delay lastReq aRead,
   admissionTime delay (admissionTime delay lastReq aRead) bRead)

/-- Two overlapping calls to `rateLimitedRequest` on the JavaScript event
loop: caller B reaches its read of `this.lastRequestTime` at `bRead`; it
observes caller A's write only if A's admission has already happened,
otherwise it reads the stale `lastReq`. -/
def twoInterleavedAdmissions (delay lastReq aRead bRead : ℤ) : ℤ × ℤ :=
  (admissionTime delay lastReq aRead,
   admissionTime delay
     (if admissionTime delay lastReq aRead ≤ bRead then
        admissionTime delay lastReq aRead
      else lastReq)
     bRead)

end BaseApiClient

/-! ## StreamConnection (`src/apps/realtime-alerts/src/App.jsx`) -/

namespace App

/-- The values assigned to the `status` state (`opened` renders as the
string `open`). -/
inductive ConnStatus where
  | disconnected
  | connecting
  | opened
  | closed
  | failed
  deriving DecidableEq, Repr

/-- `BACKOFF_MIN = 5000`. -/
def BACKOFF_MIN : ℚ := 5000

/-- `BACKOFF_MAX = 60000`. -/
def BACKOFF_MAX : ℚ := 60000

/-- `MAX_RECONNECT_ATTEMPTS = 8`. -/
def MAX_RECONNECT_ATTEMPTS : ℕ := 8

/-- One element of `TRADING_PAIRS` (the `displayName` field is omitted:
it only feeds log strings). -/
structure TradingPair where
  id : String
  krakenPair : String
  deriving DecidableEq, Repr

/-- The `TRADING_PAIRS` constant. -/
def TRADING_PAIRS : List TradingPair :=
  [⟨"BTC/USD", "XBT/USD"⟩, ⟨"BTC/USDC", "XBT/USDC"⟩, ⟨"SOL/USD", "SOL/USD"⟩,
   ⟨"ETH/USD", "ETH/USD"⟩, ⟨"DOGE/USD", "XDG/USD"⟩, ⟨"SHIB/USD", "SHIB/USD"⟩]

/-- The component state relevant to connection management: React state
(`status`, `connecting`, `reconnectAttempts`, `prices`, `errorCount`) and
refs (`backoffRef`, `reconnectToRef` as the Boolean `reconnectScheduled`,
`channelIdsRef`, `messageCountRef`, `hasValidPongRef`, `lastActivityRef`,
`lastPingTimeRef`, `lastPongTimeRef`). -/
structure AppState where
  status : ConnStatus
  connecting : Bool
  reconnectAttempts : ℕ
  backoff : ℚ
  reconnectScheduled : Bool
  prices : List (String × ℚ)
  channelIds : List (String × ℤ)
  errorCount : ℕ
  messageCount : ℕ
  hasValidPong : Bool
  lastActivity : ℤ
  lastPingTime : ℤ
  lastPongTime : ℤ
  deriving DecidableEq, Repr

/-- The backoff recomputation inside `scheduleReconnect`:
`Math.min(backoff * 1.5 + Math.random() * 1000, BACKOFF_MAX)`, with the
jitter sample as a parameter. -/
def backoffGrowth (b jitter : ℚ) : ℚ :=
  min (b * (3 / 2) + jitter) BACKOFF_MAX

/-- `scheduleReconnect`: duplicate-scheduling guard, ceiling check, backoff
growth (only when `reconnectAttempts > 0`), then arm the timer. -/
def scheduleReconnect (s : AppState) (jitter : ℚ) : AppState :=
  if s.reconnectScheduled then s
  else if MAX_RECONNECT_ATTEMPTS ≤ s.reconnectAttempts then
    { s with status := .failed }
  else
    { s with
        backoff := if 0 < s.reconnectAttempts then backoffGrowth s.backoff jitter
                   else s.backoff
        reconnectScheduled := true }

/-- `ws.onopen`: status `open`, reset `reconnectAttempts` to 0 and
`backoffRef` to `BACKOFF_MIN`, clear the valid-pong flag. -/
def onopen (s : AppState) : AppState :=
  { s with status := .opened
           connecting := false
           reconnectAttempts := 0
           backoff := BACKOFF_MIN
           hasValidPong := false }

/-- `ws.onclose`: status `disconnected`, `clearTimers()` (which cancels a
pending reconnect timer), then `scheduleReconnect()` unless the close was
clean (`code === 1000`). -/
def onclose (s : AppState) (code : ℤ) (jitter : ℚ) : AppState :=
  if code ≠ 1000 then
    scheduleReconnect
      { s with status := .disconnected, connecting := false, reconnectScheduled := false }
      jitter
  else
    { s with status := .disconnected, connecting := false, reconnectScheduled := false }

/-- The armed reconnect timer fires: `reconnectToRef.current = null`, then
`connect()` starts an attempt (`connecting`, status `connecting`). -/
def reconnectTimerFires (s : AppState) : AppState :=
  { s with reconnectScheduled := false, connecting := true, status := .connecting }

/-- One full failed connection attempt: the armed timer fires, `connect()`
runs, and the attempt ends in `ws.onclose` with an abnormal code (1006). -/
def failedAttemptCycle (s : AppState) (jitter : ℚ) : AppState :=
  onclose (reconnectTimerFires s) 1006 jitter

/-- State at mount, before `connect()` is called from the boot effect. -/
def initialState : AppState :=
  { status := .disconnected, connecting := false, reconnectAttempts := 0
    backoff := BACKOFF_MIN, reconnectScheduled := false, prices := []
    channelIds := [], errorCount := 0, messageCount := 0, hasValidPong := false
    lastActivity := 0, lastPingTime := 0, lastPongTime := 0 }

/-- State after the boot `connect()` has started its attempt. -/
def bootState : AppState :=
  { initialState with status := .connecting, connecting := true }

/-- State after `n` consecutive failed connection attempts (each attempt
fails with an abnormal close and the next one is started by the armed
reconnect timer; jitter is irrelevant on this path and fixed to 0). -/
def afterFailures : ℕ → AppState
  | 0 => bootState
  | n + 1 => failedAttemptCycle (afterFailures n) 0

/-- Inbound frames after `JSON.parse`, as a tagged union.  `malformed` is a
frame on which `JSON.parse` throws.  For a ticker array
`[channelID, tickerData, channelName, pair]`, the `c` component is
`tickerData.c` when present, each element replaced by its `parseFloat`
result (`none` is `NaN`). -/
inductive WsMessage where
  | malformed
  | subscriptionStatus (status : String) (pair : String) (channelID : ℤ)
  | pong
  | heartbeat
  | ticker (channelID : ℤ) (c : Option (List (Option ℚ)))
      (channelName : String) (pair : String)
  | other
  deriving DecidableEq, Repr

/-- Strategy 1 of the ticker handler: scan the `channelIdsRef.current`
entries for the channel id, then look the matching pair id up in
`TRADING_PAIRS`. -/
def findByChannel (ids : List (String × ℤ)) (chan : ℤ) : Option TradingPair :=
  match ids.find? fun q => q.2 == chan with
  | some q => TRADING_PAIRS.find? fun p => p.id == q.1
  | none => none

/-- Ticker routing: strategy 1 (channel id), falling back to strategy 2
(provider pair name). -/
def resolvePair (ids : List (String × ℤ)) (chan : ℤ) (pair : String) :
    Option TradingPair :=
  match findByChannel ids chan with
  | some t => some t
  | none => TRADING_PAIRS.find? fun p => p.krakenPair == pair

/-- `ws.onmessage`.  A frame that fails `JSON.parse` lands in the `catch`
block: `errorCountRef.current++` and nothing else.  Every parsed frame
first counts as activity (`bump()`, here the `lastActivity := now` update
in each branch), then is dispatched on its shape.  In the ticker branch
`messageCountRef.current++` runs before the `Number.isNaN` check, and a
`NaN` price is only logged as a warning — the error counter is untouched. -/
def onmessage (s : AppState) (m : WsMessage) (now : ℤ) : AppState :=
  match m with
  | .malformed => { s with errorCount := s.errorCount + 1 }
  | .subscriptionStatus st pair chan =>
    if st = "subscribed" then
      { s with lastActivity := now, channelIds := mapSet s.channelIds pair chan }
    else { s with lastActivity := now }
  | .pong =>
    if 0 < now - s.lastPingTime ∧ 0 < s.lastPingTime then
      { s with lastActivity := now, lastPongTime := now, hasValidPong := true }
    else { s with lastActivity := now, lastPongTime := now }
  | .heartbeat => { s with lastActivity := now }
  | .ticker chan c name pair =>
    match resolvePair s.channelIds chan pair, c with
    | some tpair, some (c0 :: _) =>
      match c0 with
      | some p =>
        { s with lastActivity := now
                 messageCount := s.messageCount + 1
                 prices := mapSet s.prices tpair.id p }
      | none =>
        { s with lastActivity := now, messageCount := s.messageCount + 1 }
    | _, _ => { s with lastActivity := now }
  | .other => { s with lastActivity := now }

end App

/-! ## The older StreamConnection variant (two-pair build): maintenance and
subscription-error backoff escalations in its `ws.onmessage` handler -/

namespace LegacyApp

/-- `BACKOFF_MIN = 2000` in the older build. -/
def BACKOFF_MIN : ℚ := 2000

/-- `BACKOFF_MAX = 60000`. -/
def BACKOFF_MAX : ℚ := 60000

/-- The backoff growth in the older `scheduleReconnect`, applied
unconditionally after arming the timer:
`Math.min(backoff * 1.5 + Math.random() * 1000, BACKOFF_MAX)`. -/
def backoffGrowth (b jitter : ℚ) : ℚ :=
  min (b * (3 / 2) + jitter) BACKOFF_MAX

/-- The `systemStatus: maintenance` handler:
`backoffRef.current = Math.max(backoffRef.current * 2, 30000)` — no upper
cap. -/
def maintenanceBackoff (b : ℚ) : ℚ :=
  max (b * 2) 30000

/-- The `subscriptionStatus: error` handler:
`backoffRef.current = Math.max(backoffRef.current * 1.5, BACKOFF_MIN + 1000)`
— no upper cap. -/
def subscriptionErrorBackoff (b : ℚ) : ℚ :=
  max (b * (3 / 2)) (BACKOFF_MIN + 1000)

end LegacyApp

/-! ## Public-operation wrapper for CacheManager -/

/-- One public `CacheManager` operation (including the periodic `cleanup`
sweep). -/
inductive CMOp (κ α : Type) where
  | set (k : κ) (v : α) (ttl : Option ℤ) (now : ℤ)
  | get (k : κ) (now : ℤ)
  | has (k : κ) (now : ℤ)
  | delete (k : κ)
  | clear
  | cleanup (now : ℤ)

/-- Run one public operation; `none` only for a `set` whose eviction loop
would never terminate. -/
def applyOp {κ α : Type} [DecidableEq κ] (cfg : CacheConfig) (valueSize : α → ℤ)
    (s : CMState κ α) : CMOp κ α → Option (CMState κ α)
  | .set k v ttl now => CacheManager.set cfg valueSize s k v ttl now
  | .get k now => some (CacheManager.get valueSize s k now).2
  | .has k now => some (CacheManager.has valueSize s k now).2
  | .delete k => some (CacheManager.delete valueSize s k)
  | .clear => some (CacheManager.clear s)
  | .cleanup now => some (CacheManager.cleanup valueSize s now)

/-- A value-size estimate used by the concrete traces below. -/
def tinyValueSize : ℤ → ℤ := fun _ => 0

/-- A two-entry cache profile used by the concrete traces below. -/
def cfgTwo : CacheConfig := ⟨2, 1000000, 300000⟩

/-! ## The claims -/

/-- C9.  CacheManager structural invariant: after any public operation
(`set`, `get`, `has`, `delete`, `clear` or the periodic `cleanup`), the
`accessOrder` list contains exactly the keys present in the cache map, each
exactly once, and `currentMemory` equals the sum of `getSize()` over all
stored entries. -/
theorem cacheManager_invariant_preserved {κ α : Type} [DecidableEq κ]
    (cfg : CacheConfig) (valueSize : α → ℤ) (op : CMOp κ α) (s : CMState κ α)
    (hs : CacheManager.Inv valueSize s) :
    ∀ s', applyOp cfg valueSize s op = some s' → CacheManager.Inv valueSize s' := by
  intro s' h
  cases op with
  | set k v ttl now =>
    exact CacheManager.inv_set valueSize cfg hs k v ttl now h
  | get k now =>
    simp only [applyOp, Option.some.injEq] at h
    exact h ▸ CacheManager.inv_get valueSize hs k now
  | has k now =>
    simp only [applyOp, Option.some.injEq] at h
    exact h ▸ CacheManager.inv_has valueSize hs k now
  | delete k =>
    simp only [applyOp, Option.some.injEq] at h
    exact h ▸ CacheManager.inv_delete valueSize hs k
  | clear =>
    simp only [applyOp, Option.some.injEq] at h
    exact h ▸ CacheManager.inv_clear valueSize s
  | cleanup now =>
    simp only [applyOp, Option.some.injEq] at h
    exact h ▸ CacheManager.inv_cleanup valueSize hs now

/-- C9 witness: the invariant theorem applied at a concrete operation and
state. -/
theorem cacheManager_invariant_preserved_witness :
    CacheManager.Inv tinyValueSize
      ((CacheManager.get tinyValueSize (CacheManager.emptyState : CMState ℕ ℤ) 1 0).2) :=
  cacheManager_invariant_preserved cfgTwo tinyValueSize (CMOp.get 1 0)
    CacheManager.emptyState (CacheManager.inv_emptyState tinyValueSize) _ rfl

/-- C7.  Whenever the socket's open handler fires, the reconnect attempt
count is reset to 0 and the current backoff to the configured minimum
(`BACKOFF_MIN`), regardless of the prior state. -/
theorem onopen_resets_reconnect_state (s : App.AppState) :
    (App.onopen s).reconnectAttempts = 0 ∧
    (App.onopen s).backoff = App.BACKOFF_MIN ∧
    (App.onopen s).status = App.ConnStatus.opened :=
  ⟨rfl, rfl, rfl⟩

/-- C1 (code bug).  After eight consecutive failed connection attempts the
component is NOT in the `failed` state: `reconnectAttempts` is never
incremented anywhere in the file (it is only ever reset to 0), so the
`reconnectAttempts >= MAX_RECONNECT_ATTEMPTS` ceiling check in
`scheduleReconnect` can never fire, the attempt counter still reads 0, and
a ninth reconnect is armed. -/
theorem eight_failures_do_not_reach_failed :
    (App.afterFailures 8).status ≠ App.ConnStatus.failed ∧
    (App.afterFailures 8).reconnectScheduled = true ∧
    (App.afterFailures 8).reconnectAttempts = 0 := by
  decide

/-- C2 counterexample.  Two concurrent callers of `rateLimitedRequest`
(`rateLimitDelay = 1000`, previous admission at t=1000): caller A reads
`lastRequestTime` at t=1500 and sleeps until t=2000; caller B reads the
still-unwritten `lastRequestTime` at t=1600 (during A's sleep) and also
wakes at t=2000.  Both requests are admitted at t=2000 — the spacing
between consecutive admissions is 0, below the configured minimum. -/
theorem rateLimiter_concurrent_spacing_violation :
    (BaseApiClient.twoInterleavedAdmissions 1000 1000 1500 1600).1 = 2000 ∧
    (BaseApiClient.twoInterleavedAdmissions 1000 1000 1500 1600).2 = 2000 ∧
    (BaseApiClient.twoInterleavedAdmissions 1000 1000 1500 1600).2 -
      (BaseApiClient.twoInterleavedAdmissions 1000 1000 1500 1600).1 < 1000 := by
  decide

/-- C2 (amended).  For two serialized calls to `rateLimitedRequest` — the
second call reads `lastRequestTime` only after the first call's admission
has written it — the spacing between the two admissions is at least the
configured `rateLimitDelay`; `lastRequestTime` is recorded at admission
time (before the request executes), which is what the second call
observes. -/
theorem rateLimiter_sequential_spacing (delay lastReq aRead bRead : ℤ)
    (h : (BaseApiClient.twoSequentialAdmissions delay lastReq aRead bRead).1 ≤ bRead) :
    delay ≤ (BaseApiClient.twoSequentialAdmissions delay lastReq aRead bRead).2 -
      (BaseApiClient.twoSequentialAdmissions delay lastReq aRead bRead).1 := by
  unfold BaseApiClient.twoSequentialAdmissions at h ⊢
  dsimp only at h ⊢
  generalize BaseApiClient.admissionTime delay lastReq aRead = A at h ⊢
  unfold BaseApiClient.admissionTime
  by_cases hb : bRead - A < delay
  · rw [if_pos hb]
    omega
  · rw [if_neg hb]
    omega

/-- C2 witness: the sequential-spacing theorem at a concrete input. -/
theorem rateLimiter_sequential_spacing_witness :
    (BaseApiClient.twoSequentialAdmissions 1000 0 2000 3000).1 ≤ 3000 ∧
    1000 ≤ (BaseApiClient.twoSequentialAdmissions 1000 0 2000 3000).2 -
      (BaseApiClient.twoSequentialAdmissions 1000 0 2000 3000).1 :=
  ⟨by decide, rateLimiter_sequential_spacing 1000 0 2000 3000 (by decide)⟩

/-- C6 counterexample.  A cache key whose stored entry is fresh (timestamp
0, read at t=1000, `cacheDuration` 5 min) but whose cached payload is the
falsy number `0`: the `if (cached)` truthiness test fails, so `request`
does NOT return the cached value — it performs a rate-limited network call
(one fetch, `lastRequestTime` updated to the admission instant,
`requestCount` incremented) and overwrites the entry, refuting the claimed
unconditional short-circuit on fresh entries. -/
theorem falsy_cache_hit_does_not_short_circuit :
    (BaseApiClient.request BaseApiClient.alphaVantageConfig BaseApiClient.intTruthy
        (⟨[("k", 0, 0)], 0, 0, 0⟩ : BaseApiClient.ClientState String ℤ) "k" 1000
        (fun _ => .ok 7) (fun _ => 2000)).2.2 = 1 ∧
    (BaseApiClient.request BaseApiClient.alphaVantageConfig BaseApiClient.intTruthy
        (⟨[("k", 0, 0)], 0, 0, 0⟩ : BaseApiClient.ClientState String ℤ) "k" 1000
        (fun _ => .ok 7) (fun _ => 2000)).1 = .ok 7 ∧
    (BaseApiClient.request BaseApiClient.alphaVantageConfig BaseApiClient.intTruthy
        (⟨[("k", 0, 0)], 0, 0, 0⟩ : BaseApiClient.ClientState String ℤ) "k" 1000
        (fun _ => .ok 7) (fun _ => 2000)).2.1.lastRequestTime = 2000 ∧
    (BaseApiClient.request BaseApiClient.alphaVantageConfig BaseApiClient.intTruthy
        (⟨[("k", 0, 0)], 0, 0, 0⟩ : BaseApiClient.ClientState String ℤ) "k" 1000
        (fun _ => .ok 7) (fun _ => 2000)).2.1.requestCount = 1 := by
  refine ⟨?_, ?_, ?_, ?_⟩ <;>
    simp [BaseApiClient.request, BaseApiClient.requestNetwork,
      BaseApiClient.getCachedData, BaseApiClient.retryRequest,
      BaseApiClient.requestFn, BaseApiClient.setCachedData,
      BaseApiClient.alphaVantageConfig, BaseApiClient.intTruthy, mapLookup, mapSet]

/-- C6 (amended).  When `request` is called with a cache key whose stored
entry is still younger than `cacheDuration` AND whose cached payload is
truthy, the cached value is returned immediately: the resulting client
state is identical to the input state (no `lastRequestTime` update, no
`requestCount` change, no cache change) and zero network calls are
performed.  A fresh entry with a falsy payload does not short-circuit. -/
theorem request_cache_hit_short_circuits {κ α : Type} [DecidableEq κ]
    (cfg : BaseApiClient.ClientConfig) (truthy : α → Bool)
    (s : BaseApiClient.ClientState κ α) (key : κ) (now ts : ℤ) (v : α)
    (fetch : ℕ → BaseApiClient.FetchOutcome α) (admitTime : ℕ → ℤ)
    (hlook : mapLookup s.cache key = some (v, ts))
    (hfresh : now - ts < cfg.cacheDuration)
    (htruthy : truthy v = true) :
    BaseApiClient.request cfg truthy s key now fetch admitTime = (.ok v, s, 0) := by
  have hg : BaseApiClient.getCachedData cfg.cacheDuration s.cache key now =
      (some v, s.cache) := by
    unfold BaseApiClient.getCachedData
    rw [hlook]
    exact if_pos hfresh
  have hhit : BaseApiClient.request cfg truthy s key now fetch admitTime =
      if truthy v then ((.ok v : Except BaseApiClient.ReqError α),
          { s with cache := s.cache }, 0)
      else BaseApiClient.requestNetwork cfg s s.cache key fetch admitTime := by
    unfold BaseApiClient.request
    rw [hg]
  rw [hhit, if_pos htruthy]

/-- C6 witness: the truthy-cache-hit theorem at a concrete fresh entry. -/
theorem request_cache_hit_short_circuits_witness :
    BaseApiClient.request BaseApiClient.alphaVantageConfig BaseApiClient.intTruthy
        (⟨[("rsi-BTCUSD-daily", 7, 0)], 0, 0, 0⟩ : BaseApiClient.ClientState String ℤ)
        "rsi-BTCUSD-daily" 1000 (fun _ => .netfail) (fun _ => 0) =
      (.ok 7, ⟨[("rsi-BTCUSD-daily", 7, 0)], 0, 0, 0⟩, 0) :=
  request_cache_hit_short_circuits BaseApiClient.alphaVantageConfig BaseApiClient.intTruthy
    ⟨[("rsi-BTCUSD-daily", 7, 0)], 0, 0, 0⟩ "rsi-BTCUSD-daily" 1000 0 7
    (fun _ => .netfail) (fun _ => 0) rfl (by decide) (by decide)

/-- C4 counterexample.  A request whose every attempt returns HTTP 404 — a
PermanentError in the spec's taxonomy — is retried to the full 3-attempt
ceiling (3 network calls, not 1) before the error is surfaced: the code's
`retryRequest` retries every caught error without classifying it. -/
theorem request_retries_permanent_errors :
    (BaseApiClient.request BaseApiClient.alphaVantageConfig BaseApiClient.intTruthy
        (⟨[], 0, 0, 0⟩ : BaseApiClient.ClientState String ℤ) "q" 0
        (fun _ => .status 404) (fun _ => 0)).2.2 = 3 ∧
    (BaseApiClient.request BaseApiClient.alphaVantageConfig BaseApiClient.intTruthy
        (⟨[], 0, 0, 0⟩ : BaseApiClient.ClientState String ℤ) "q" 0
        (fun _ => .status 404) (fun _ => 0)).1 =
      .error (.httpError 404) := by
  constructor <;>
    simp [BaseApiClient.request, BaseApiClient.requestNetwork,
      BaseApiClient.getCachedData, BaseApiClient.retryRequest,
      BaseApiClient.requestFn, BaseApiClient.alphaVantageConfig, mapLookup]

/-- C4 (amended).  `request` failures are classified by `requestFn` into
rate-limit (429), HTTP-status, network and malformed-response errors; when
the cache misses, EVERY failure class — including 4xx other than 429 — is
retried up to the fixed ceiling of 3 attempts in total, with delay
`retryDelay * 2^(attempt-1)` (5s, 10s) slept between attempts, and on
exhaustion the last error is propagated to the caller. -/
theorem request_retry_ceiling {κ α : Type} [DecidableEq κ]
    (truthy : α → Bool)
    (s : BaseApiClient.ClientState κ α) (key : κ) (now : ℤ)
    (fetch : ℕ → BaseApiClient.FetchOutcome α) (admitTime : ℕ → ℤ)
    (e1 e2 e3 : BaseApiClient.ReqError)
    (hmiss : mapLookup s.cache key = none)
    (h1 : BaseApiClient.requestFn (fetch 1) = .error e1)
    (h2 : BaseApiClient.requestFn (fetch 2) = .error e2)
    (h3 : BaseApiClient.requestFn (fetch 3) = .error e3) :
    BaseApiClient.retryRequest (fun i => BaseApiClient.requestFn (fetch i)) 3 5000 1 =
      (.error e3, 3, [5000, 10000]) ∧
    (BaseApiClient.request BaseApiClient.alphaVantageConfig truthy s key now fetch admitTime).1 =
      .error e3 ∧
    (BaseApiClient.request BaseApiClient.alphaVantageConfig truthy s key now fetch admitTime).2.2 = 3 := by
  have hr : BaseApiClient.retryRequest
      (fun i => BaseApiClient.requestFn (fetch i)) 3 5000 1 =
      (.error e3, 3, [5000, 10000]) := by
    rw [BaseApiClient.retryRequest]
    simp only [h1]
    rw [dif_neg (by omega : ¬(3 ≤ 1))]
    rw [BaseApiClient.retryRequest]
    simp only [h2]
    rw [dif_neg (by omega : ¬(3 ≤ 2))]
    rw [BaseApiClient.retryRequest]
    simp only [h3]
    rw [dif_pos (by omega : 3 ≤ 3)]
    norm_num
  have hg : BaseApiClient.getCachedData (300000 : ℤ) s.cache key now =
      (none, s.cache) := by
    unfold BaseApiClient.getCachedData
    rw [hmiss]
  refine ⟨hr, ?_, ?_⟩ <;>
    simp [BaseApiClient.request, BaseApiClient.requestNetwork, hg,
      BaseApiClient.alphaVantageConfig, hr]

/-- C4 witness: the retry-ceiling theorem at a concrete always-404 fetch
oracle. -/
theorem request_retry_ceiling_witness :
    BaseApiClient.retryRequest
        (fun i => BaseApiClient.requestFn ((fun _ => .status 404 :
          ℕ → BaseApiClient.FetchOutcome ℤ) i)) 3 5000 1 =
      (.error (.httpError 404), 3, [5000, 10000]) ∧
    (BaseApiClient.request BaseApiClient.alphaVantageConfig BaseApiClient.intTruthy
        (⟨[], 9, 0, 0⟩ : BaseApiClient.ClientState String ℤ) "w" 0
        (fun _ => .status 404) (fun _ => 0)).1 = .error (.httpError 404) ∧
    (BaseApiClient.request BaseApiClient.alphaVantageConfig BaseApiClient.intTruthy
        (⟨[], 9, 0, 0⟩ : BaseApiClient.ClientState String ℤ) "w" 0
        (fun _ => .status 404) (fun _ => 0)).2.2 = 3 :=
  request_retry_ceiling BaseApiClient.intTruthy ⟨[], 9, 0, 0⟩ "w" 0 (fun _ => .status 404) (fun _ => 0)
    (.httpError 404) (.httpError 404) (.httpError 404) rfl
    (by simp [BaseApiClient.requestFn]) (by simp [BaseApiClient.requestFn])
    (by simp [BaseApiClient.requestFn])

/-- The backoff value after `n` scheduled reconnects in the older build,
with every jitter sample equal to 0 (`Math.random()` can return 0). -/
def legacyGrowthSeq : ℕ → ℚ
  | 0 => LegacyApp.BACKOFF_MIN
  | n + 1 => LegacyApp.backoffGrowth (legacyGrowthSeq n) 0

/-- C5 counterexample.  The normal growth path reaches the 60s cap after 9
failed attempts; a `systemStatus: maintenance` notice then recomputes the
backoff as `Math.max(60000 * 2, 30000) = 120000` — exceeding the configured
maximum of 60s, because the maintenance escalation path has no cap. -/
theorem maintenance_backoff_exceeds_max :
    legacyGrowthSeq 9 = 60000 ∧
    LegacyApp.maintenanceBackoff (legacyGrowthSeq 9) = 120000 ∧
    LegacyApp.BACKOFF_MAX < LegacyApp.maintenanceBackoff (legacyGrowthSeq 9) := by
  refine ⟨?_, ?_, ?_⟩ <;>
    norm_num [legacyGrowthSeq, LegacyApp.backoffGrowth, LegacyApp.BACKOFF_MIN,
      LegacyApp.BACKOFF_MAX, LegacyApp.maintenanceBackoff]

/-- C5 (amended).  The backoff recomputation on the normal failure-growth
path (`scheduleReconnect`, both builds) never exceeds the configured 60s
maximum, for every attempt state and jitter sample; the maintenance and
subscription-error escalation paths of the older build guarantee a floor
(30s, resp. `BACKOFF_MIN + 1000`) but have no cap: they exceed 60s exactly
when the current backoff exceeds 30s (resp. 40s). -/
theorem backoff_growth_capped_escalations_not :
    (∀ b j : ℚ, App.backoffGrowth b j ≤ App.BACKOFF_MAX) ∧
    (∀ b j : ℚ, LegacyApp.backoffGrowth b j ≤ LegacyApp.BACKOFF_MAX) ∧
    (∀ b : ℚ, 30000 ≤ LegacyApp.maintenanceBackoff b) ∧
    (∀ b : ℚ, 60000 < LegacyApp.maintenanceBackoff b ↔ 30000 < b) ∧
    (∀ b : ℚ, 60000 < LegacyApp.subscriptionErrorBackoff b ↔ 40000 < b) := by
  refine ⟨fun b j => min_le_right _ _, fun b j => min_le_right _ _,
    fun b => le_max_right _ _, fun b => ?_, fun b => ?_⟩
  · unfold LegacyApp.maintenanceBackoff
    rw [lt_max_iff]
    constructor
    · rintro (h | h)
      · linarith
      · norm_num at h
    · intro h
      left
      linarith
  · unfold LegacyApp.subscriptionErrorBackoff LegacyApp.BACKOFF_MIN
    rw [lt_max_iff]
    constructor
    · rintro (h | h)
      · linarith
      · norm_num at h
    · intro h
      left
      linarith

/-- A nominally open connection state that has acknowledged channel 1 for
`BTC/USD`. -/
def nanTickerState : App.AppState :=
  { App.initialState with status := .opened, channelIds := [("BTC/USD", 1)] }

/-- A ticker frame `[1, {c:["abc"]}, "ticker", "XBT/USD"]` whose price
field does not parse to a number (`parseFloat` yields `NaN`). -/
def nanTicker : App.WsMessage :=
  .ticker 1 (some [none]) "ticker" "XBT/USD"

/-- C8 counterexample.  A data message whose price field fails numeric
parsing is dropped (status and prices untouched, message counted) but the
error counter is NOT incremented: the `NaN` branch only logs a warning —
only a `JSON.parse` failure increments `errorCountRef`. -/
theorem nan_price_does_not_increment_error_counter :
    (App.onmessage nanTickerState nanTicker 5).errorCount = nanTickerState.errorCount ∧
    (App.onmessage nanTickerState nanTicker 5).messageCount =
      nanTickerState.messageCount + 1 ∧
    (App.onmessage nanTickerState nanTicker 5).status = nanTickerState.status ∧
    (App.onmessage nanTickerState nanTicker 5).prices = nanTickerState.prices := by
  decide

/-- C8 (amended).  A `JSON.parse` failure on one inbound frame leaves the
connection status unchanged, increments the error counter, and drops only
that frame; a data message whose price field parses to `NaN` likewise
leaves status and prices unchanged but increments no error counter; and
neither kind of bad frame prevents a subsequent valid data message from
updating the price table. -/
theorem parse_failures_are_isolated (s : App.AppState) (now : ℤ) :
    ((App.onmessage s .malformed now).status = s.status ∧
     (App.onmessage s .malformed now).errorCount = s.errorCount + 1 ∧
     (App.onmessage s .malformed now).prices = s.prices) ∧
    (∀ (chan : ℤ) (rest : List (Option ℚ)) (name pair : String),
      (App.onmessage s (.ticker chan (some (none :: rest)) name pair) now).status = s.status ∧
      (App.onmessage s (.ticker chan (some (none :: rest)) name pair) now).errorCount = s.errorCount ∧
      (App.onmessage s (.ticker chan (some (none :: rest)) name pair) now).prices = s.prices) ∧
    (∀ (chan : ℤ) (rest : List (Option ℚ)) (q : ℚ),
      s.channelIds.find? (fun e => e.2 == chan) = none →
      mapLookup (App.onmessage s
          (.ticker chan (some (some q :: rest)) "ticker" "XBT/USD") now).prices
        "BTC/USD" = some q) := by
  have hticker : ∀ (chan : ℤ) (c : Option (List (Option ℚ))) (name pair : String),
      App.onmessage s (.ticker chan c name pair) now =
        match App.resolvePair s.channelIds chan pair, c with
        | some tpair, some (c0 :: _) =>
          match c0 with
          | some p =>
            { s with lastActivity := now
                     messageCount := s.messageCount + 1
                     prices := mapSet s.prices tpair.id p }
          | none =>
            { s with lastActivity := now, messageCount := s.messageCount + 1 }
        | _, _ => { s with lastActivity := now } :=
    fun chan c name pair => rfl
  refine ⟨⟨rfl, rfl, rfl⟩, ?_, ?_⟩
  · intro chan rest name pair
    rw [hticker]
    cases h1 : App.resolvePair s.channelIds chan pair with
    | some t => exact ⟨rfl, rfl, rfl⟩
    | none => exact ⟨rfl, rfl, rfl⟩
  · intro chan rest q hch
    have hres : App.resolvePair s.channelIds chan "XBT/USD" =
        some ⟨"BTC/USD", "XBT/USD"⟩ := by
      unfold App.resolvePair App.findByChannel
      rw [hch]
      rfl
    rw [hticker, hres]
    exact mapLookup_mapSet_self s.prices "BTC/USD" q

/-- C8 witness: the isolation theorem applied at a concrete state and
message. -/
theorem parse_failures_are_isolated_witness :
    mapLookup (App.onmessage App.initialState
        (.ticker 2 (some [some 42]) "ticker" "XBT/USD") 7).prices
      "BTC/USD" = some 42 :=
  (parse_failures_are_isolated App.initialState 7).2.2 2 [] 42 rfl

/-- The RestClient's internal response cache after inserting keys
`0..49` at times `0..49` (one per `setCachedData` call). -/
def clientTraceFilled : List (ℕ × ℤ × ℤ) :=
  (List.range 50).foldl (fun c i => BaseApiClient.setCachedData c i 0 (i : ℤ)) []

/-- The same cache after `getCachedData` reads key `0` at time 100 (a fresh
hit — key `0` is now the most recently accessed entry). -/
def clientTraceAccessed : List (ℕ × ℤ × ℤ) :=
  (BaseApiClient.getCachedData 300000 clientTraceFilled 0 100).2

/-- The cache after a 51st insertion (key `50` at time 101), which trims
the map back to 50 entries. -/
def clientTraceFinal : List (ℕ × ℤ × ℤ) :=
  BaseApiClient.setCachedData clientTraceAccessed 50 0 101

set_option maxRecDepth 100000 in
/-- C3 counterexample.  In the RestClient's internal response cache, the
51st insertion evicts key `0` — the entry that was just read at time 100
and is therefore the MOST recently accessed — while key `1`, the actual
least-recently-accessed entry, survives: this cache evicts by insertion
order (FIFO), not by last access. -/
theorem clientCache_evicts_by_insertion_order :
    (BaseApiClient.getCachedData 300000 clientTraceFilled 0 100).1 = some 0 ∧
    mapLookup clientTraceFinal 0 = none ∧
    (mapLookup clientTraceFinal 1).isSome = true := by
  decide

/-- The CacheManager LRU trace: capacity-2 cache; insert key 0, insert key
1, read key 0 (refreshing its access recency), then insert key 2. -/
def lruStep1 : CMState ℕ ℤ :=
  (CacheManager.set cfgTwo tinyValueSize CacheManager.emptyState 0 10 none 0).getD
    CacheManager.emptyState

def lruStep2 : CMState ℕ ℤ :=
  (CacheManager.set cfgTwo tinyValueSize lruStep1 1 11 none 1).getD lruStep1

def lruStep3 : CMState ℕ ℤ :=
  (CacheManager.get tinyValueSize lruStep2 0 2).2

def lruTrace : CMState ℕ ℤ :=
  (CacheManager.set cfgTwo tinyValueSize lruStep3 2 12 none 3).getD lruStep3

theorem lruStep1_eq :
    lruStep1 = ⟨[(0, ⟨10, 0, 0, 0, 300000⟩)], [0], 100⟩ := by
  simp [lruStep1, CacheManager.set, CacheManager.evictLoop, CacheManager.shouldEvict,
    CacheManager.emptyState, mapLookup, mapSet, CacheEntry.getSize, tinyValueSize, cfgTwo]

theorem lruStep2_eq :
    lruStep2 = ⟨[(0, ⟨10, 0, 0, 0, 300000⟩), (1, ⟨11, 1, 1, 0, 300000⟩)], [0, 1], 200⟩ := by
  rw [lruStep2, lruStep1_eq]
  simp [CacheManager.set, CacheManager.evictLoop, CacheManager.shouldEvict,
    mapLookup, mapSet, CacheEntry.getSize, tinyValueSize, cfgTwo]

theorem lruStep3_eq :
    lruStep3 = ⟨[(0, ⟨10, 0, 2, 1, 300000⟩), (1, ⟨11, 1, 1, 0, 300000⟩)], [1, 0], 200⟩ := by
  rw [lruStep3, lruStep2_eq]
  decide

theorem lruTrace_eq :
    lruTrace = ⟨[(0, ⟨10, 0, 2, 1, 300000⟩), (2, ⟨12, 3, 3, 0, 300000⟩)], [0, 2], 200⟩ := by
  rw [lruTrace, lruStep3_eq]
  simp [CacheManager.set, CacheManager.evictLoop, CacheManager.evictLRU,
    CacheManager.removeEntry, CacheManager.shouldEvict, mapLookup, mapSet,
    mapErase, eraseFirst, CacheEntry.getSize, tinyValueSize, cfgTwo]

set_option maxRecDepth 100000 in
/-- C3 (amended).  The `CacheManager` caches evict the least-recently-
ACCESSED entry (reading key 0 after inserting keys 0 then 1 makes key 1
the LRU victim of the next insertion, although key 0 was inserted first);
the RestClient's internal response cache instead evicts the least-recently-
INSERTED entry: after the 51-entry trace its keys are exactly `1..50` in
insertion order — the first-inserted key was dropped regardless of access
recency. -/
theorem cacheManager_lru_client_fifo :
    (mapLookup lruTrace.cache 1 = none ∧
     (mapLookup lruTrace.cache 0).isSome = true ∧
     (mapLookup lruTrace.cache 2).isSome = true) ∧
    clientTraceFinal.map Prod.fst = List.range' 1 50 := by
  constructor
  · rw [lruTrace_eq]
    decide
  · decide

/-- C10.  `CacheManager.set` on a cache that already holds `maxSize = 2`
entries, called with a key `b` that is ALREADY present: the eviction check
runs before the same-key replacement, so the least-recently-used entry `a`
(front of `accessOrder`) is evicted even though the entry count would not
have grown — updating an existing key in a full cache removes an unrelated
entry. -/
theorem set_at_capacity_evicts_unrelated_entry {κ α : Type} [DecidableEq κ]
    (valueSize : α → ℤ) (M T now : ℤ) (a b : κ) (v : α) (ea eb : CacheEntry α)
    (hab : a ≠ b)
    (hfit : eb.getSize valueSize + (valueSize v + 100) ≤ M) :
    ∃ s', CacheManager.set ⟨2, M, T⟩ valueSize
        ⟨[(a, ea), (b, eb)], [a, b], ea.getSize valueSize + eb.getSize valueSize⟩
        b v none now = some s' ∧
      mapLookup s'.cache a = none ∧
      mapLookup s'.cache b = some ⟨v, now, now, 0, T⟩ ∧
      s'.cache.length = 1 := by
  have hE : CacheManager.evictLRU valueSize
      (⟨[(a, ea), (b, eb)], [a, b],
        ea.getSize valueSize + eb.getSize valueSize⟩ : CMState κ α) =
      ⟨[(b, eb)], [b], eb.getSize valueSize⟩ := by
    simp [CacheManager.evictLRU, CacheManager.removeEntry, mapLookup, mapErase,
      eraseFirst, Ne.symm hab]
  have hc1 : CacheManager.shouldEvict (⟨2, M, T⟩ : CacheConfig)
      (⟨[(a, ea), (b, eb)], [a, b],
        ea.getSize valueSize + eb.getSize valueSize⟩ : CMState κ α)
      (valueSize v + 100) = true := by
    simp [CacheManager.shouldEvict]
  have hc2 : CacheManager.shouldEvict (⟨2, M, T⟩ : CacheConfig)
      (⟨[(b, eb)], [b], eb.getSize valueSize⟩ : CMState κ α)
      (valueSize v + 100) = false := by
    unfold CacheManager.shouldEvict
    simp only [Bool.or_eq_false_iff, decide_eq_false_iff_not]
    refine ⟨by simp, ?_⟩
    show ¬ (M < eb.getSize valueSize + (valueSize v + 100))
    omega
  have hLoop : CacheManager.evictLoop (⟨2, M, T⟩ : CacheConfig) valueSize
      (valueSize v + 100)
      (⟨[(a, ea), (b, eb)], [a, b],
        ea.getSize valueSize + eb.getSize valueSize⟩ : CMState κ α) =
      some ⟨[(b, eb)], [b], eb.getSize valueSize⟩ := by
    rw [CacheManager.evictLoop, if_pos hc1]
    rw [dif_neg (by simp : ¬ (⟨[(a, ea), (b, eb)], [a, b],
      ea.getSize valueSize + eb.getSize valueSize⟩ : CMState κ α).accessOrder = [])]
    rw [hE, CacheManager.evictLoop]
    simp [hc2]
  have hset : CacheManager.set (⟨2, M, T⟩ : CacheConfig) valueSize
      (⟨[(a, ea), (b, eb)], [a, b],
        ea.getSize valueSize + eb.getSize valueSize⟩ : CMState κ α) b v none now =
      (CacheManager.evictLoop (⟨2, M, T⟩ : CacheConfig) valueSize
        (valueSize v + 100)
        (⟨[(a, ea), (b, eb)], [a, b],
          ea.getSize valueSize + eb.getSize valueSize⟩ : CMState κ α)).map
        (fun s1 =>
          let s2 := if (mapLookup s1.cache b).isSome then
              CacheManager.removeEntry valueSize s1 b
            else s1
          { cache := mapSet s2.cache b ⟨v, now, now, 0, T⟩
            accessOrder := s2.accessOrder ++ [b]
            currentMemory := s2.currentMemory + (valueSize v + 100) }) := rfl
  rw [hset, hLoop, Option.map_some']
  have hlb : mapLookup [(b, eb)] b = some eb := by simp [mapLookup]
  refine ⟨_, rfl, ?_, ?_, ?_⟩ <;>
    simp [hlb, CacheManager.removeEntry, mapLookup, mapErase, eraseFirst, mapSet,
      Ne.symm hab]

/-- C10 witness: the eviction-before-replacement theorem at concrete keys,
entries and bounds. -/
theorem set_at_capacity_evicts_unrelated_entry_witness :
    ∃ s', CacheManager.set ⟨2, 1000, 300000⟩ tinyValueSize
        ⟨[(1, ⟨10, 0, 0, 0, 300000⟩), (2, ⟨11, 1, 1, 0, 300000⟩)], [1, 2],
          CacheEntry.getSize tinyValueSize ⟨10, 0, 0, 0, 300000⟩ +
            CacheEntry.getSize tinyValueSize ⟨11, 1, 1, 0, 300000⟩⟩
        2 (42 : ℤ) none 5 = some s' ∧
      mapLookup s'.cache 1 = none ∧
      mapLookup s'.cache 2 = some ⟨42, 5, 5, 0, 300000⟩ ∧
      s'.cache.length = 1 :=
  set_at_capacity_evicts_unrelated_entry tinyValueSize 1000 300000 5 1 2 42
    ⟨10, 0, 0, 0, 300000⟩ ⟨11, 1, 1, 0, 300000⟩ (by decide) (by decide)
